import Mathlib

/-!
Verification of the candidate aggregation, filtering, weighted-scoring and
report-generation pipeline of `pubmed_elink.py` (Phases 1-5 of `main`,
together with `filter_candidates`).

The external `elink`/`efetch` calls are modelled as oracle functions
(`related` for `get_related_pmids`, `md` for the prefetched metadata dict),
and each fixed regex pattern family of `filter_candidates` is modelled as an
abstract Boolean matcher, since the claims under verification concern the
control flow around the `re.search` calls and not the regex engine itself.
Python float arithmetic of Phase 4 is embedded into the reals (with `**`
as `Real.rpow`); the ranked-report sort consumes the already-computed score
values, embedded as rationals so that the comparison is executable.
-/

/-- The curated seed list baked into the program (`INCLUDE_PMIDS`). -/
def INCLUDE_PMIDS : List Nat := [
  32514106, 38068624, 40399895, 27085183, 29025393, 34240169, 39611775, 27357660,
  31862875, 25641359, 39149812, 27294617, 37019898, 36467269, 25901015, 30044522,
  24967630, 39316046, 30861529, 30950186, 33931610, 31570895, 36266506, 38012346,
  35883045, 33073445, 40186008, 31300020, 22660545, 34497122, 37770615, 34289200,
  39107305, 29983312, 38689695, 35060228, 30318590, 33477542, 35787713, 36862793,
  28473417, 35337259, 31462776, 31366935, 32941604, 36864629, 40269167, 37797086,
  34797710, 35513577, 28256021, 34294107, 33247723, 30384830, 34172741, 30411828,
  39472552, 39325737, 31676863, 36932922, 21980108, 38221758, 26549859, 38414075,
  31298732, 34498072, 38606833, 34980919, 35484301, 38978318, 38809753, 34473873,
  22660546, 34706738, 32422187, 33100219, 40307323, 34493868, 33397978, 30806624,
  40097782, 27301592, 31653677, 32681796, 31570613, 36480621, 35037853, 34806764,
  38150485, 40587577, 29301967, 38991084, 37210585, 31394003, 34106529, 36071507,
  34502156, 38988615, 23984715, 30791928, 33687945, 34786880, 36946261, 30867414,
  35012630, 33878927, 37335936, 36578210, 28087781, 37173729, 40148071, 39496880,
  23793030, 40415256, 30523281, 30858362, 36477175, 39006000, 29736016, 34934047,
  33020633, 27500524, 38504651, 39510980, 34479604, 37253933, 26569124, 32503111,
  37647532, 35154199, 34191029, 28416819, 34272249, 34329481, 39279509, 40651977,
  32973000, 37883717, 35298255, 39906956, 38263403, 31114806, 38069099, 31002209,
  36477810, 33950177, 41206694, 25817433, 38232726, 30217779, 26825293, 29575353,
  40770574, 33139952, 34971791, 39719589, 39945053, 32641831, 38990113, 32794321,
  35527235, 32514036, 27029319, 28530677, 31036963, 34759320, 27707802, 37079743,
  40435003, 36684744, 32341525, 36426120, 29866176, 36435453, 28263319, 38898961,
  36260744, 36415319, 37339133, 38396942, 38755313, 37524773, 36419182, 33846635,
  39187610, 31624088, 36018239, 30472326, 34999019, 38720463, 32377351, 40708030,
  38768215, 27595476, 38033071, 38883333, 31570620, 40098183, 24443444, 33539781,
  34240238, 30573726, 35551309, 35361112, 33430931, 35654976, 38578160, 38479835,
  31676864, 36928772, 31519986, 33144942, 35366022, 39349447, 33106631, 25643055,
  29284515]

/-- The known-negative list baked into the program (`EXCLUDE_PMIDS`). -/
def EXCLUDE_PMIDS : List Nat := [
  29476024, 34828432, 35075727, 29409859, 24760390, 34165082, 23990800, 36546413,
  22231484, 30051843, 37043536, 34354260, 32913300, 32821413, 39634061, 35710823,
  31549477, 33439857, 23267105, 28992310, 35138897, 31048485, 39056474, 27258693,
  33512726, 32969558, 37974527, 36109148, 39582196, 33166746, 30710646, 35152499,
  35676481, 26865341, 38166629, 33973633, 33837962, 16649157, 20345635, 35180846,
  29183772, 35031793, 29018458, 4383925, 4822723, 4978888, 5015928, 5026255,
  5569476, 5646786, 5811809, 5831853, 5853444, 5873934, 6046548, 6162604,
  6169392, 6304691, 6431195, 6523605, 6553533, 6895062, 7247153, 7721174,
  7947771, 7959735, 8428838, 8550333, 9226155, 9541791, 9590452, 9590488,
  9680854, 9821504, 9905331, 9943071, 9979274, 10091845, 11628880]
/-- Cutoff excluding older papers (`MIN_PMID = 21980108`). -/
def MIN_PMID : Nat := 21980108

/-- The inner loop of Phase 1 of `main` for one seed: walk the related PMIDs,
skip any that lie in the include or exclude set or below the `MIN_PMID`
cutoff, and append the seed to the candidate's discovering-seed list
(`candidate_seeds[pmid].append(seed)`).  The accumulator is the
`candidate_seeds` defaultdict, a total map whose default value is `[]`. -/
def addRelated (seed : Nat) (acc : Nat → List Nat) : List Nat → (Nat → List Nat)
  | [] => acc
  | pmid :: rest =>
    if INCLUDE_PMIDS.contains pmid || EXCLUDE_PMIDS.contains pmid then
      addRelated seed acc rest
    else if pmid < MIN_PMID then
      addRelated seed acc rest
    else
      addRelated seed (fun q => if q = pmid then acc q ++ [seed] else acc q) rest

/-- The outer loop of Phase 1 over the seeds, starting from accumulator `acc`;
`related` stands for `get_related_pmids`. -/
def aggregateFrom (related : Nat → List Nat) (acc : Nat → List Nat) :
    List Nat → (Nat → List Nat)
  | [] => acc
  | seed :: rest => aggregateFrom related (addRelated seed acc (related seed)) rest

/-- Phase 1 aggregation: the final `candidate_seeds` map.  A PMID is a
candidate exactly when its discovering-seed list is nonempty. -/
def aggregate (related : Nat → List Nat) (seeds : List Nat) : Nat → List Nat :=
  aggregateFrom related (fun _ => []) seeds

/-- Phase 2: `candidate_scores[pmid] = len(seeds)`. -/
def rawScore (candidateSeeds : Nat → List Nat) (pmid : Nat) : Nat :=
  (candidateSeeds pmid).length

/-- One metadata record as assembled by `fetch_article_metadata`. -/
structure ArticleMeta where
  title : String
  abstract : String
  pubtypes : String

/-- The five fixed regex families used by `filter_candidates`, abstracted as
Boolean matchers: `comparative` for `comparative_patterns`, `assembly` for the
assembly/genome-assembly pattern, `exclPubtypes` for `excl_pt`, `negative`
for `neg_patterns` and `positive` for `pos_patterns`.  A matcher returning
`true` on `s` models success of the corresponding `re.search(pattern, s)`. -/
structure FilterPatterns where
  comparative : String → Bool
  assembly : String → Bool
  exclPubtypes : String → Bool
  negative : String → Bool
  positive : String → Bool

/-- The `content` string of `filter_candidates`: lower-cased title-abstract
concatenation. -/
def contentOf (m : ArticleMeta) : String :=
  (m.title ++ " " ++ m.abstract).toLower

/-- The `pubtypes` string of `filter_candidates`: lower-cased
publication-type list. -/
def pubtypesOf (m : ArticleMeta) : String :=
  m.pubtypes.toLower

/-- The per-candidate loop of `filter_candidates`, threading the
`comparative_hits` accumulator (Python dict, modelled as a list of keys in
insertion order).  `md` is the prefetched `metadata` dict; candidates are
walked in the insertion order of the `candidates` dict. -/
def filterGo (P : FilterPatterns) (requirePos assemblyOnlyExclude : Bool)
    (md : Nat → Option ArticleMeta) :
    List (Nat × List Nat) → List Nat → List (Nat × List Nat) × List Nat
  | [], hits => ([], hits)
  | (pmid, seeds) :: rest, hits =>
    match md pmid with
    | none =>
      let r := filterGo P requirePos assemblyOnlyExclude md rest hits
      ((pmid, seeds) :: r.1, r.2)
    | some m =>
      let content := contentOf m
      let hits1 := if P.comparative content then hits ++ [pmid] else hits
      if assemblyOnlyExclude && P.assembly content && !(hits1.contains pmid) then
        filterGo P requirePos assemblyOnlyExclude md rest hits1
      else if !(pubtypesOf m).isEmpty && P.exclPubtypes (pubtypesOf m) then
        filterGo P requirePos assemblyOnlyExclude md rest hits1
      else if P.negative content then
        filterGo P requirePos assemblyOnlyExclude md rest hits1
      else if requirePos && !(P.positive content) then
        filterGo P requirePos assemblyOnlyExclude md rest hits1
      else
        let r := filterGo P requirePos assemblyOnlyExclude md rest hits1
        ((pmid, seeds) :: r.1, r.2)

/-- `filter_candidates`: the surviving candidate map (in input order) paired
with the recorded comparative hits. -/
def filterCandidates (P : FilterPatterns) (requirePos assemblyOnlyExclude : Bool)
    (md : Nat → Option ArticleMeta) (candidates : List (Nat × List Nat)) :
    List (Nat × List Nat) × List Nat :=
  filterGo P requirePos assemblyOnlyExclude md candidates []

/-- The keep/discard decision `filter_candidates` makes for a single
candidate, read off from the exclusion chain: fail-open on missing metadata,
assembly-only exclusion (exempting comparative hits), publication-type
exclusion, negative-signal exclusion, then the positive-signal requirement. -/
def keepsCandidate (P : FilterPatterns) (requirePos assemblyOnlyExclude : Bool)
    (md : Nat → Option ArticleMeta) (pmid : Nat) : Bool :=
  match md pmid with
  | none => true
  | some m =>
    let content := contentOf m
    if assemblyOnlyExclude && P.assembly content && !(P.comparative content) then
      false
    else if !(pubtypesOf m).isEmpty && P.exclPubtypes (pubtypesOf m) then
      false
    else if P.negative content then
      false
    else if requirePos && !(P.positive content) then
      false
    else
      true

/-- Whether `filter_candidates` records a comparative hit for a candidate:
metadata was fetched and its content matches the comparative pattern set. -/
def comparativeHit (P : FilterPatterns) (md : Nat → Option ArticleMeta)
    (pmid : Nat) : Bool :=
  match md pmid with
  | none => false
  | some m => P.comparative (contentOf m)

/-- Configuration of Phase 4: the `--age-beta`, `--age-gamma` and
`--comparative-boost` command-line parameters. -/
structure ScoreConfig where
  ageBeta : ℝ
  ageGamma : ℝ
  comparativeBoost : ℝ

/-- Phase 4 weighted score of one candidate, with `maxPmid`/`minPmid` the
extremes of the surviving candidate set: in the degenerate `max_pmid ==
min_pmid` case the raw score is taken unchanged, otherwise the age-normalized
penalty formula applies; the comparative boost is then applied whenever the
candidate is a recorded comparative hit. -/
noncomputable def weightedScore (cfg : ScoreConfig) (maxPmid minPmid pmid score : Nat)
    (isComp : Bool) : ℝ :=
  let base : ℝ :=
    if maxPmid = minPmid then (score : ℝ)
    else
      (score : ℝ) *
        (1 - cfg.ageBeta *
          ((((maxPmid : ℝ) - (pmid : ℝ)) / ((maxPmid : ℝ) - (minPmid : ℝ))) ^ cfg.ageGamma))
  if isComp then base * cfg.comparativeBoost else base

/-- Phase 5: `max_score = max(candidate_scores.values())` (`0` on the empty
map, a case the program has already ruled out by then). -/
def maxRawScore (scores : List (Nat × Nat)) : Nat :=
  (scores.map Prod.snd).foldr max 0

/-- Phase 5: `recommended_threshold = max(2, max_score // 10)`. -/
def recommendedThreshold (maxScore : Nat) : Nat :=
  max 2 (maxScore / 10)

/-- The fixed threshold candidate list `[2, 3, 5, 10, recommended_threshold]`
of the Phase 5 output loop. -/
def thresholdCandidates (maxScore : Nat) : List Nat :=
  [2, 3, 5, 10, recommendedThreshold maxScore]

/-- Body of one `candidates_min-T-_seeds.txt` file: the candidates of the
(post-filter) score map whose raw score reaches the threshold, written in
ascending PMID order, one per line. -/
def thresholdFileContent (scores : List (Nat × Nat)) (t : Nat) : List Nat :=
  ((scores.filter (fun c => t ≤ c.2)).map Prod.fst).mergeSort
    (fun a b => decide (a ≤ b))

/-- The threshold files emitted by the Phase 5 loop, as pairs of threshold
and file body: a file is written for each entry of the fixed candidate list
that does not exceed the maximum raw score, and larger thresholds are
skipped. -/
def emittedThresholdFiles (scores : List (Nat × Nat)) : List (Nat × List Nat) :=
  (thresholdCandidates (maxRawScore scores)).filterMap fun t =>
    if t ≤ maxRawScore scores then some (t, thresholdFileContent scores t)
    else none

/-- The comparison used to order the rows of `candidates_ranked.txt`: Python
sorts the candidate PMIDs by the key tuple
`(-weighted_scores[p], -candidate_scores[p], p)` in ascending lexicographic
order.  The already-computed weighted scores are consumed as rationals (every
finite float value is rational) so the comparison is executable. -/
def rankLE (w : Nat → ℚ) (s : Nat → Nat) (p q : Nat) : Bool :=
  decide (w q < w p) ||
    (decide (w p = w q) &&
      (decide (s q < s p) || (decide (s p = s q) && decide (p ≤ q))))

/-- The data-row order of `candidates_ranked.txt`: the candidate PMIDs sorted
under `rankLE`. -/
def rankedPmids (w : Nat → ℚ) (s : Nat → Nat) (pmids : List Nat) : List Nat :=
  pmids.mergeSort (rankLE w s)

/-- Constant matcher set used by the concrete filter witnesses: everything
matches the comparative, assembly and positive patterns, nothing matches the
publication-type or negative patterns. -/
def witnessPatterns : FilterPatterns :=
  ⟨fun _ => true, fun _ => true, fun _ => false, fun _ => false, fun _ => true⟩

/-- Metadata oracle used by the concrete filter witnesses: every PMID has an
empty metadata record. -/
def witnessMd : Nat → Option ArticleMeta :=
  fun _ => some ⟨"", "", ""⟩

/-- Metadata oracle modelling a failed fetch for every PMID. -/
def witnessMdNone : Nat → Option ArticleMeta :=
  fun _ => none

/-- Helper: bounds on the age-normalization ratio for a candidate inside the
surviving PMID range. -/
lemma ageNorm_bounds (maxPmid minPmid pmid : Nat) (hlt : minPmid < maxPmid)
    (h1 : minPmid ≤ pmid) (h2 : pmid ≤ maxPmid) :
    0 ≤ (((maxPmid : ℝ) - (pmid : ℝ)) / ((maxPmid : ℝ) - (minPmid : ℝ))) ∧
      (((maxPmid : ℝ) - (pmid : ℝ)) / ((maxPmid : ℝ) - (minPmid : ℝ))) ≤ 1 := by
  have hden : (0 : ℝ) < (maxPmid : ℝ) - (minPmid : ℝ) := by
    have := (Nat.cast_lt (α := ℝ)).mpr hlt
    linarith
  have hnum0 : (0 : ℝ) ≤ (maxPmid : ℝ) - (pmid : ℝ) := by
    have := (Nat.cast_le (α := ℝ)).mpr h2
    linarith
  have hnum1 : (maxPmid : ℝ) - (pmid : ℝ) ≤ (maxPmid : ℝ) - (minPmid : ℝ) := by
    have := (Nat.cast_le (α := ℝ)).mpr h1
    linarith
  exact ⟨div_nonneg hnum0 hden.le, (div_le_one hden).mpr hnum1⟩

/-- C2 (counterexample): in the degenerate `maxId == minId` case a candidate
recorded as a comparative hit does not keep its raw score: with the default
configuration a raw score of `2` becomes `2 * 1.15 = 2.3`. -/
theorem weightedScore_degenerate_comparative_cex :
    weightedScore ⟨0.3, 0.7, 1.15⟩ 500 500 500 2 true ≠ 2 := by
  norm_num [weightedScore]

/-- C2 (amended): whenever `maxId == minId`, the weighted score of a
surviving candidate equals its raw score exactly when the candidate is not a
comparative hit, and equals the raw score times the comparative boost when it
is. -/
theorem weightedScore_degenerate (cfg : ScoreConfig)
    (maxPmid minPmid pmid score : Nat) (isComp : Bool) (h : maxPmid = minPmid) :
    weightedScore cfg maxPmid minPmid pmid score isComp =
      if isComp then (score : ℝ) * cfg.comparativeBoost else (score : ℝ) := by
  simp [weightedScore, h]

/-- Witness for `weightedScore_degenerate` at a concrete input. -/
theorem weightedScore_degenerate_witness :
    (500 : Nat) = 500 ∧ weightedScore ⟨0.3, 0.7, 1.15⟩ 500 500 500 2 false = 2 := by
  refine ⟨rfl, ?_⟩
  have h := weightedScore_degenerate ⟨0.3, 0.7, 1.15⟩ 500 500 500 2 false rfl
  simpa using h

/-- C3: within one scoring run, holding the raw score and the comparative
flag fixed, for a positive age penalty (and nonnegative curve exponent and
boost) the candidate with the smaller identifier receives a weighted score at
most that of the candidate with the larger identifier. -/
theorem weightedScore_age_monotone (cfg : ScoreConfig)
    (maxPmid minPmid p q score : Nat) (isComp : Bool)
    (hb : 0 < cfg.ageBeta) (hg : 0 ≤ cfg.ageGamma)
    (hboost : 0 ≤ cfg.comparativeBoost)
    (hminp : minPmid ≤ p) (hpq : p ≤ q) (hqmax : q ≤ maxPmid) :
    weightedScore cfg maxPmid minPmid p score isComp ≤
      weightedScore cfg maxPmid minPmid q score isComp := by
  unfold weightedScore
  by_cases heq : maxPmid = minPmid
  · simp [heq]
  · have hlt : minPmid < maxPmid :=
      lt_of_le_of_ne (hminp.trans (hpq.trans hqmax)) (Ne.symm heq)
    obtain ⟨hq0, _⟩ := ageNorm_bounds maxPmid minPmid q hlt (hminp.trans hpq) hqmax
    have hden : (0 : ℝ) < (maxPmid : ℝ) - (minPmid : ℝ) := by
      have := (Nat.cast_lt (α := ℝ)).mpr hlt
      linarith
    have hqp : (((maxPmid : ℝ) - (q : ℝ)) / ((maxPmid : ℝ) - (minPmid : ℝ))) ≤
        (((maxPmid : ℝ) - (p : ℝ)) / ((maxPmid : ℝ) - (minPmid : ℝ))) := by
      have := (Nat.cast_le (α := ℝ)).mpr hpq
      gcongr
    have hpow :
        (((maxPmid : ℝ) - (q : ℝ)) / ((maxPmid : ℝ) - (minPmid : ℝ))) ^ cfg.ageGamma ≤
          (((maxPmid : ℝ) - (p : ℝ)) / ((maxPmid : ℝ) - (minPmid : ℝ))) ^ cfg.ageGamma :=
      Real.rpow_le_rpow hq0 hqp hg
    have hmul : cfg.ageBeta *
        (((maxPmid : ℝ) - (q : ℝ)) / ((maxPmid : ℝ) - (minPmid : ℝ))) ^ cfg.ageGamma ≤
        cfg.ageBeta *
        (((maxPmid : ℝ) - (p : ℝ)) / ((maxPmid : ℝ) - (minPmid : ℝ))) ^ cfg.ageGamma :=
      mul_le_mul_of_nonneg_left hpow hb.le
    have hbase : (score : ℝ) *
        (1 - cfg.ageBeta *
          (((maxPmid : ℝ) - (p : ℝ)) / ((maxPmid : ℝ) - (minPmid : ℝ))) ^ cfg.ageGamma) ≤
        (score : ℝ) *
        (1 - cfg.ageBeta *
          (((maxPmid : ℝ) - (q : ℝ)) / ((maxPmid : ℝ) - (minPmid : ℝ))) ^ cfg.ageGamma) :=
      mul_le_mul_of_nonneg_left (by linarith) (Nat.cast_nonneg _)
    simp only [if_neg heq]
    cases isComp
    · simpa using hbase
    · simpa using mul_le_mul_of_nonneg_right hbase hboost

/-- Witness for `weightedScore_age_monotone` at a concrete input. -/
theorem weightedScore_age_monotone_witness :
    (0 : ℝ) < 0.3 ∧
      weightedScore ⟨0.3, 0.7, 1.15⟩ 300 100 150 2 false ≤
        weightedScore ⟨0.3, 0.7, 1.15⟩ 300 100 200 2 false := by
  refine ⟨by norm_num, ?_⟩
  exact weightedScore_age_monotone ⟨0.3, 0.7, 1.15⟩ 300 100 150 200 2 false
    (by norm_num) (by norm_num) (by norm_num)
    (by norm_num) (by norm_num) (by norm_num)

/-- C9 (counterexample): with `ageBeta = 1` (the upper end of the stated
`[0,1]` range) and a positive `ageGamma`, the oldest surviving candidate gets
weighted score exactly `0`, not a strictly positive value. -/
theorem weightedScore_pos_cex :
    weightedScore ⟨1, 1, 1.15⟩ 200 100 100 1 false = 0 := by
  have h : ((((200 : Nat) : ℝ) - ((100 : Nat) : ℝ)) /
      (((200 : Nat) : ℝ) - ((100 : Nat) : ℝ))) = 1 := by
    norm_num
  simp only [weightedScore]
  rw [if_neg (by norm_num), h, Real.one_rpow]
  norm_num

/-- C9 (amended): for any surviving candidate with raw score at least `1`,
an age penalty `ageBeta` in `[0,1)`, a positive `ageGamma`, and (when the
candidate is a comparative hit) a positive boost, the weighted score is
strictly positive; and no clamping is applied — a comparative hit whose
boost exceeds `1` gets a weighted score strictly above its raw score
whenever its age penalty vanishes (`pmid = maxPmid`). -/
theorem weightedScore_pos (cfg : ScoreConfig) (maxPmid minPmid pmid score : Nat)
    (isComp : Bool) (hscore : 1 ≤ score)
    (hb0 : 0 ≤ cfg.ageBeta) (hb1 : cfg.ageBeta < 1) (hg : 0 < cfg.ageGamma)
    (hboost : isComp = true → 0 < cfg.comparativeBoost)
    (hminp : minPmid ≤ pmid) (hpmax : pmid ≤ maxPmid) :
    0 < weightedScore cfg maxPmid minPmid pmid score isComp ∧
      (isComp = true → 1 < cfg.comparativeBoost → pmid = maxPmid →
        (score : ℝ) < weightedScore cfg maxPmid minPmid pmid score isComp) := by
  have hsc : (0 : ℝ) < (score : ℝ) := by
    exact_mod_cast Nat.lt_of_lt_of_le Nat.zero_lt_one hscore
  refine ⟨?_, ?_⟩
  case refine_2 =>
    intro hcomp hbgt hpm
    subst hcomp
    subst hpm
    have hval : weightedScore cfg pmid minPmid pmid score true =
        (score : ℝ) * cfg.comparativeBoost := by
      unfold weightedScore
      by_cases heq : pmid = minPmid
      · simp [heq]
      · simp [heq, sub_self, zero_div, Real.zero_rpow hg.ne']
    rw [hval]
    exact (lt_mul_iff_one_lt_right hsc).mpr hbgt
  unfold weightedScore
  by_cases heq : maxPmid = minPmid
  · cases isComp
    · simpa [heq] using hsc
    · have := hboost rfl
      simp only [heq, if_pos rfl]
      simpa using mul_pos hsc this
  · have hlt : minPmid < maxPmid :=
      lt_of_le_of_ne (hminp.trans hpmax) (Ne.symm heq)
    obtain ⟨hx0, hx1⟩ := ageNorm_bounds maxPmid minPmid pmid hlt hminp hpmax
    have hpow1 :
        (((maxPmid : ℝ) - (pmid : ℝ)) / ((maxPmid : ℝ) - (minPmid : ℝ))) ^ cfg.ageGamma ≤ 1 :=
      Real.rpow_le_one hx0 hx1 hg.le
    have hpow0 : 0 ≤
        (((maxPmid : ℝ) - (pmid : ℝ)) / ((maxPmid : ℝ) - (minPmid : ℝ))) ^ cfg.ageGamma :=
      Real.rpow_nonneg hx0 _
    have hblt : cfg.ageBeta *
        (((maxPmid : ℝ) - (pmid : ℝ)) / ((maxPmid : ℝ) - (minPmid : ℝ))) ^ cfg.ageGamma < 1 := by
      calc cfg.ageBeta *
          (((maxPmid : ℝ) - (pmid : ℝ)) / ((maxPmid : ℝ) - (minPmid : ℝ))) ^ cfg.ageGamma
          ≤ cfg.ageBeta * 1 := mul_le_mul_of_nonneg_left hpow1 hb0
        _ = cfg.ageBeta := mul_one _
        _ < 1 := hb1
    have hbase : 0 < (score : ℝ) *
        (1 - cfg.ageBeta *
          (((maxPmid : ℝ) - (pmid : ℝ)) / ((maxPmid : ℝ) - (minPmid : ℝ))) ^ cfg.ageGamma) :=
      mul_pos hsc (by linarith)
    simp only [if_neg heq]
    cases isComp
    · simpa using hbase
    · have := hboost rfl
      simpa using mul_pos hbase this

/-- Witness for `weightedScore_pos` at a concrete input, exercising both the
positivity and the boosted-above-raw-score conjuncts. -/
theorem weightedScore_pos_witness :
    (1 : Nat) ≤ 2 ∧
      (0 < weightedScore ⟨0.3, 0.7, 1.15⟩ 300 100 300 2 true ∧
        (true = true → 1 < (⟨0.3, 0.7, 1.15⟩ : ScoreConfig).comparativeBoost →
          (300 : Nat) = 300 →
          ((2 : Nat) : ℝ) < weightedScore ⟨0.3, 0.7, 1.15⟩ 300 100 300 2 true)) := by
  refine ⟨by norm_num, ?_⟩
  exact weightedScore_pos ⟨0.3, 0.7, 1.15⟩ 300 100 300 2 true
    (by norm_num) (by norm_num) (by norm_num) (by norm_num)
    (fun _ => by norm_num) (by norm_num) (by norm_num)

/-- Helper: the Phase 1 inner loop only ever appends the seed to eligible
PMIDs, so candidacy of an ineligible PMID is preserved (vacuously) across one
seed's related list. -/
lemma addRelated_eligible (seed : Nat) (acc : Nat → List Nat) (rel : List Nat)
    (pmid : Nat)
    (hacc : acc pmid ≠ [] →
      INCLUDE_PMIDS.contains pmid = false ∧ EXCLUDE_PMIDS.contains pmid = false ∧
        MIN_PMID ≤ pmid)
    (h : addRelated seed acc rel pmid ≠ []) :
    INCLUDE_PMIDS.contains pmid = false ∧ EXCLUDE_PMIDS.contains pmid = false ∧
      MIN_PMID ≤ pmid := by
  induction rel generalizing acc with
  | nil => exact hacc h
  | cons r rest ih =>
    simp only [addRelated] at h
    by_cases h1 : (INCLUDE_PMIDS.contains r || EXCLUDE_PMIDS.contains r) = true
    · rw [if_pos h1] at h
      exact ih acc hacc h
    · rw [if_neg h1] at h
      by_cases h2 : r < MIN_PMID
      · rw [if_pos h2] at h
        exact ih acc hacc h
      · rw [if_neg h2] at h
        refine ih _ ?_ h
        intro hne
        by_cases hpr : pmid = r
        · subst hpr
          simp only [Bool.or_eq_true, not_or, Bool.not_eq_true] at h1
          exact ⟨h1.1, h1.2, Nat.le_of_not_lt h2⟩
        · simp only [if_neg hpr] at hne
          exact hacc hne

/-- Helper: candidacy in the Phase 1 outer loop implies eligibility, given
that the starting accumulator already satisfies the invariant. -/
lemma aggregateFrom_eligible (related : Nat → List Nat) (acc : Nat → List Nat)
    (seeds : List Nat) (pmid : Nat)
    (hacc : acc pmid ≠ [] →
      INCLUDE_PMIDS.contains pmid = false ∧ EXCLUDE_PMIDS.contains pmid = false ∧
        MIN_PMID ≤ pmid)
    (h : aggregateFrom related acc seeds pmid ≠ []) :
    INCLUDE_PMIDS.contains pmid = false ∧ EXCLUDE_PMIDS.contains pmid = false ∧
      MIN_PMID ≤ pmid := by
  induction seeds generalizing acc with
  | nil => exact hacc h
  | cons s rest ih =>
    simp only [aggregateFrom] at h
    exact ih _ (fun hne => addRelated_eligible s acc (related s) pmid hacc hne) h

/-- C1 (amended): every candidate present in the aggregated map has a raw
score equal to the length of its discovering-seed list (one entry per
discovery event, so a seed whose related list repeats the candidate is
counted with multiplicity), and its identifier lies outside both
`INCLUDE_PMIDS` and `EXCLUDE_PMIDS` and at or above `MIN_PMID`. -/
theorem aggregate_rawScore_eligibility (related : Nat → List Nat)
    (seeds : List Nat) (pmid : Nat) (h : aggregate related seeds pmid ≠ []) :
    rawScore (aggregate related seeds) pmid = (aggregate related seeds pmid).length ∧
      INCLUDE_PMIDS.contains pmid = false ∧ EXCLUDE_PMIDS.contains pmid = false ∧
      MIN_PMID ≤ pmid :=
  ⟨rfl, aggregateFrom_eligible related _ seeds pmid (fun hne => absurd rfl hne) h⟩

/-- Witness for `aggregate_rawScore_eligibility` at a concrete input. -/
theorem aggregate_rawScore_eligibility_witness :
    aggregate (fun _ => [30000001]) [32514106] 30000001 ≠ [] ∧
      (rawScore (aggregate (fun _ => [30000001]) [32514106]) 30000001 =
          ((aggregate (fun _ => [30000001]) [32514106]) 30000001).length ∧
        INCLUDE_PMIDS.contains 30000001 = false ∧
        EXCLUDE_PMIDS.contains 30000001 = false ∧ MIN_PMID ≤ 30000001) :=
  ⟨by decide, aggregate_rawScore_eligibility _ _ _ (by decide)⟩

/-- C1 (counterexample): when one seed's related list names the same
candidate twice, the aggregation appends that seed twice, so the raw score
is `2` while only one distinct seed discovered the candidate. -/
theorem aggregate_distinct_seeds_cex :
    rawScore (aggregate (fun _ => [30000000, 30000000]) [32514106]) 30000000 = 2 ∧
      ((aggregate (fun _ => [30000000, 30000000]) [32514106]) 30000000).dedup.length = 1 := by
  constructor <;> decide

/-- Helper: the surviving output of the per-candidate loop is a sublist of
its input, whatever the comparative-hit accumulator holds. -/
lemma filterGo_sublist (P : FilterPatterns) (requirePos assemblyOnlyExclude : Bool)
    (md : Nat → Option ArticleMeta) :
    ∀ (cands : List (Nat × List Nat)) (hits : List Nat),
      (filterGo P requirePos assemblyOnlyExclude md cands hits).1.Sublist cands := by
  intro cands
  induction cands with
  | nil =>
    intro hits
    simp [filterGo]
  | cons c rest ih =>
    intro hits
    obtain ⟨pmid, seeds⟩ := c
    simp only [filterGo]
    cases hmd : md pmid with
    | none =>
      show ((pmid, seeds) ::
          (filterGo P requirePos assemblyOnlyExclude md rest hits).1).Sublist _
      exact (ih hits).cons₂ _
    | some m =>
      dsimp only
      repeat' split
      all_goals
        first
          | exact (ih _).cons _
          | (show ((pmid, seeds) ::
                (filterGo P requirePos assemblyOnlyExclude md rest _).1).Sublist _
             exact (ih _).cons₂ _)

/-- C10: the Content Filter is a pure restriction of its input map — the
surviving association list is a sublist of the input list, so every surviving
key comes from the input, bound to exactly its input seed list, in input
order; nothing is added or modified. -/
theorem filterCandidates_sublist (P : FilterPatterns)
    (requirePos assemblyOnlyExclude : Bool) (md : Nat → Option ArticleMeta)
    (candidates : List (Nat × List Nat)) :
    (filterCandidates P requirePos assemblyOnlyExclude md candidates).1.Sublist
      candidates :=
  filterGo_sublist P requirePos assemblyOnlyExclude md candidates []

/-- Helper: with pairwise-distinct candidate keys and a comparative-hit
accumulator disjoint from them, the per-candidate loop of
`filter_candidates` decides each candidate independently: the survivors are
exactly the candidates on which `keepsCandidate` holds, and the hits recorded
are exactly the candidates on which `comparativeHit` holds. -/
lemma filterGo_eq (P : FilterPatterns) (requirePos assemblyOnlyExclude : Bool)
    (md : Nat → Option ArticleMeta) :
    ∀ (cands : List (Nat × List Nat)) (hits : List Nat),
      (cands.map Prod.fst).Nodup →
      (∀ a ∈ cands.map Prod.fst, hits.contains a = false) →
      filterGo P requirePos assemblyOnlyExclude md cands hits =
        (cands.filter
            (fun c => keepsCandidate P requirePos assemblyOnlyExclude md c.1),
          hits ++
            (cands.filter (fun c => comparativeHit P md c.1)).map Prod.fst) := by
  intro cands
  induction cands with
  | nil =>
    intro hits _ _
    simp [filterGo]
  | cons c rest ih =>
    intro hits hnd hdis
    obtain ⟨pmid, seeds⟩ := c
    simp only [List.map_cons, List.nodup_cons] at hnd
    have hph : hits.contains pmid = false := hdis pmid (by simp)
    have hdr : ∀ a ∈ rest.map Prod.fst, hits.contains a = false :=
      fun a ha => hdis a (by simp [ha])
    simp only [filterGo]
    cases hmd : md pmid with
    | none =>
      rw [ih hits hnd.2 hdr]
      clear ih hdis hdr hph hnd
      simp_all [keepsCandidate, comparativeHit, List.filter_cons]
    | some m =>
      dsimp only
      by_cases hc : P.comparative (contentOf m) = true
      · have hcp : (hits ++ [pmid]).contains pmid = true := by
          simp [List.elem_eq_mem]
        have hdr1 : ∀ a ∈ rest.map Prod.fst, (hits ++ [pmid]).contains a = false := by
          intro a ha
          have h1 : a ∉ hits := by simpa [List.elem_eq_mem] using hdr a ha
          have h2 : a ≠ pmid := fun h => hnd.1 (h ▸ ha)
          simp [List.elem_eq_mem, h1, h2]
        simp only [hc, if_true, hcp, Bool.not_true, Bool.and_false, if_false,
          Bool.false_eq_true]
        by_cases hpt : (!(pubtypesOf m).isEmpty && P.exclPubtypes (pubtypesOf m)) = true
        · rw [if_pos hpt, ih (hits ++ [pmid]) hnd.2 hdr1]
          clear hcp hdr1 ih hdis hdr hph hnd
          simp_all [keepsCandidate, comparativeHit, List.filter_cons]
        · rw [if_neg hpt]
          by_cases hneg : P.negative (contentOf m) = true
          · rw [if_pos hneg, ih (hits ++ [pmid]) hnd.2 hdr1]
            clear hcp hdr1 ih hdis hdr hph hnd
            simp_all [keepsCandidate, comparativeHit, List.filter_cons]
          · rw [if_neg hneg]
            by_cases hpos : (requirePos && !P.positive (contentOf m)) = true
            · rw [if_pos hpos, ih (hits ++ [pmid]) hnd.2 hdr1]
              clear hcp hdr1 ih hdis hdr hph hnd
              simp_all [keepsCandidate, comparativeHit, List.filter_cons]
            · rw [if_neg hpos]
              rw [ih (hits ++ [pmid]) hnd.2 hdr1]
              clear hcp hdr1 ih hdis hdr hph hnd
              simp_all [keepsCandidate, comparativeHit, List.filter_cons]
              rcases Bool.eq_false_or_eq_true (pubtypesOf m).isEmpty with hie | hie <;>
                rcases Bool.eq_false_or_eq_true requirePos with hrp | hrp <;>
                  simp_all
      · have hcb : P.comparative (contentOf m) = false :=
          Bool.not_eq_true _ ▸ Bool.of_not_eq_true hc
        simp only [hcb, Bool.false_eq_true, if_false, hph, Bool.not_false,
          Bool.and_true]
        by_cases hasm : (assemblyOnlyExclude && P.assembly (contentOf m)) = true
        · rw [if_pos hasm, ih hits hnd.2 hdr]
          clear ih hdis hdr hph hnd
          simp_all [keepsCandidate, comparativeHit, List.filter_cons]
        · rw [if_neg hasm]
          by_cases hpt : (!(pubtypesOf m).isEmpty && P.exclPubtypes (pubtypesOf m)) = true
          · rw [if_pos hpt, ih hits hnd.2 hdr]
            clear ih hdis hdr hph hnd
            simp_all [keepsCandidate, comparativeHit, List.filter_cons]
          · rw [if_neg hpt]
            by_cases hneg : P.negative (contentOf m) = true
            · rw [if_pos hneg, ih hits hnd.2 hdr]
              clear ih hdis hdr hph hnd
              simp_all [keepsCandidate, comparativeHit, List.filter_cons]
            · rw [if_neg hneg]
              by_cases hpos : (requirePos && !P.positive (contentOf m)) = true
              · rw [if_pos hpos, ih hits hnd.2 hdr]
                clear ih hdis hdr hph hnd
                simp_all [keepsCandidate, comparativeHit, List.filter_cons]
              · rw [if_neg hpos]
                rw [ih hits hnd.2 hdr]
                clear ih hdis hdr hph hnd
                simp_all [keepsCandidate, comparativeHit, List.filter_cons]
                rcases Bool.eq_false_or_eq_true (pubtypesOf m).isEmpty with hie | hie <;>
                  rcases Bool.eq_false_or_eq_true requirePos with hrp | hrp <;>
                    rcases Bool.eq_false_or_eq_true assemblyOnlyExclude with hae | hae <;>
                      simp_all

/-- Helper: `filter_candidates` on a duplicate-free candidate map, phrased
through the per-candidate decision functions. -/
lemma filterCandidates_eq (P : FilterPatterns) (requirePos assemblyOnlyExclude : Bool)
    (md : Nat → Option ArticleMeta) (candidates : List (Nat × List Nat))
    (hnd : (candidates.map Prod.fst).Nodup) :
    filterCandidates P requirePos assemblyOnlyExclude md candidates =
      (candidates.filter
          (fun c => keepsCandidate P requirePos assemblyOnlyExclude md c.1),
        (candidates.filter (fun c => comparativeHit P md c.1)).map Prod.fst) := by
  have h := filterGo_eq P requirePos assemblyOnlyExclude md candidates [] hnd
    (by intro a _; rfl)
  simpa [filterCandidates] using h

/-- Helper: for a candidate whose content matches the comparative pattern
set, the keep decision reduces to the publication-type, negative-signal and
positive-signal rules — the assembly-only exclusion plays no role. -/
lemma keepsCandidate_of_comparative (P : FilterPatterns)
    (requirePos assemblyOnlyExclude : Bool) (md : Nat → Option ArticleMeta)
    (pmid : Nat) (m : ArticleMeta) (hmd : md pmid = some m)
    (hc : P.comparative (contentOf m) = true) :
    keepsCandidate P requirePos assemblyOnlyExclude md pmid = true ↔
      (((pubtypesOf m).isEmpty = false → P.exclPubtypes (pubtypesOf m) = false) ∧
        P.negative (contentOf m) = false ∧
        (requirePos = true → P.positive (contentOf m) = true)) := by
  rcases Bool.eq_false_or_eq_true (pubtypesOf m).isEmpty with h1 | h1 <;>
    rcases Bool.eq_false_or_eq_true (P.exclPubtypes (pubtypesOf m)) with h2 | h2 <;>
      rcases Bool.eq_false_or_eq_true (P.negative (contentOf m)) with h3 | h3 <;>
        rcases Bool.eq_false_or_eq_true requirePos with h4 | h4 <;>
          rcases Bool.eq_false_or_eq_true (P.positive (contentOf m)) with h5 | h5 <;>
            simp [keepsCandidate, hmd, hc, h1, h2, h3, h4, h5]

/-- C4: a candidate whose fetched content matches the comparative pattern set
is always recorded as a comparative hit — even when a later rule discards
it — and the assembly-only exclusion never discards it: its survival is
decided purely by the publication-type, negative-signal and positive-signal
rules. -/
theorem filter_comparative_flag_spec (P : FilterPatterns)
    (requirePos assemblyOnlyExclude : Bool) (md : Nat → Option ArticleMeta)
    (candidates : List (Nat × List Nat)) (pmid : Nat) (seeds : List Nat)
    (m : ArticleMeta) (hnd : (candidates.map Prod.fst).Nodup)
    (hmem : (pmid, seeds) ∈ candidates) (hmd : md pmid = some m)
    (hc : P.comparative (contentOf m) = true) :
    pmid ∈ (filterCandidates P requirePos assemblyOnlyExclude md candidates).2 ∧
      ((pmid, seeds) ∈
          (filterCandidates P requirePos assemblyOnlyExclude md candidates).1 ↔
        (((pubtypesOf m).isEmpty = false → P.exclPubtypes (pubtypesOf m) = false) ∧
          P.negative (contentOf m) = false ∧
          (requirePos = true → P.positive (contentOf m) = true))) := by
  rw [filterCandidates_eq P requirePos assemblyOnlyExclude md candidates hnd]
  constructor
  · simp only [List.mem_map]
    refine ⟨(pmid, seeds), ?_, rfl⟩
    rw [List.mem_filter]
    exact ⟨hmem, by simp [comparativeHit, hmd, hc]⟩
  · rw [List.mem_filter]
    rw [keepsCandidate_of_comparative P requirePos assemblyOnlyExclude md pmid m hmd hc]
    exact ⟨fun h => h.2, fun h => ⟨hmem, h⟩⟩

/-- Witness for `filter_comparative_flag_spec` at a concrete input. -/
theorem filter_comparative_flag_spec_witness :
    ((([(5, [1])] : List (Nat × List Nat)).map Prod.fst).Nodup ∧
        (5, [1]) ∈ ([(5, [1])] : List (Nat × List Nat)) ∧
        witnessMd 5 = some ⟨"", "", ""⟩ ∧
        witnessPatterns.comparative (contentOf ⟨"", "", ""⟩) = true) ∧
      (5 ∈ (filterCandidates witnessPatterns true true witnessMd [(5, [1])]).2 ∧
        ((5, [1]) ∈ (filterCandidates witnessPatterns true true witnessMd [(5, [1])]).1 ↔
          (((pubtypesOf ⟨"", "", ""⟩).isEmpty = false →
              witnessPatterns.exclPubtypes (pubtypesOf ⟨"", "", ""⟩) = false) ∧
            witnessPatterns.negative (contentOf ⟨"", "", ""⟩) = false ∧
            (true = true → witnessPatterns.positive (contentOf ⟨"", "", ""⟩) = true)))) :=
  ⟨⟨by simp, by simp, rfl, rfl⟩,
    filter_comparative_flag_spec witnessPatterns true true witnessMd [(5, [1])] 5 [1]
      ⟨"", "", ""⟩ (by simp) (by simp) rfl rfl⟩

/-- C7: the Content Filter is idempotent — rerunning it on its own surviving
output with identical metadata and options removes nothing further. -/
theorem filterCandidates_idempotent (P : FilterPatterns)
    (requirePos assemblyOnlyExclude : Bool) (md : Nat → Option ArticleMeta)
    (candidates : List (Nat × List Nat))
    (hnd : (candidates.map Prod.fst).Nodup) :
    (filterCandidates P requirePos assemblyOnlyExclude md
        (filterCandidates P requirePos assemblyOnlyExclude md candidates).1).1 =
      (filterCandidates P requirePos assemblyOnlyExclude md candidates).1 := by
  have hsub :=
    (filterGo_sublist P requirePos assemblyOnlyExclude md candidates []).map
      Prod.fst
  have hnd2 :
      (((filterCandidates P requirePos assemblyOnlyExclude md candidates).1).map
        Prod.fst).Nodup := hnd.sublist hsub
  rw [filterCandidates_eq P requirePos assemblyOnlyExclude md _ hnd2,
    filterCandidates_eq P requirePos assemblyOnlyExclude md candidates hnd]
  simp [List.filter_filter]

/-- Witness for `filterCandidates_idempotent` at a concrete input. -/
theorem filterCandidates_idempotent_witness :
    ((([(5, [1])] : List (Nat × List Nat)).map Prod.fst).Nodup) ∧
      (filterCandidates witnessPatterns true true witnessMd
          (filterCandidates witnessPatterns true true witnessMd [(5, [1])]).1).1 =
        (filterCandidates witnessPatterns true true witnessMd [(5, [1])]).1 :=
  ⟨by simp,
    filterCandidates_idempotent witnessPatterns true true witnessMd [(5, [1])] (by simp)⟩

/-- C8: a candidate for which no metadata record was fetched survives the
Content Filter unconditionally, bound to its original seed list, and its
comparative flag stays unset. -/
theorem filter_keeps_unfetched (P : FilterPatterns)
    (requirePos assemblyOnlyExclude : Bool) (md : Nat → Option ArticleMeta)
    (candidates : List (Nat × List Nat)) (pmid : Nat) (seeds : List Nat)
    (hnd : (candidates.map Prod.fst).Nodup)
    (hmem : (pmid, seeds) ∈ candidates) (hmd : md pmid = none) :
    (pmid, seeds) ∈ (filterCandidates P requirePos assemblyOnlyExclude md candidates).1 ∧
      pmid ∉ (filterCandidates P requirePos assemblyOnlyExclude md candidates).2 := by
  rw [filterCandidates_eq P requirePos assemblyOnlyExclude md candidates hnd]
  constructor
  · rw [List.mem_filter]
    exact ⟨hmem, by simp [keepsCandidate, hmd]⟩
  · intro habs
    simp only [List.mem_map] at habs
    obtain ⟨c, hcf, hc1⟩ := habs
    rw [List.mem_filter] at hcf
    have hhit : comparativeHit P md pmid = true := hc1 ▸ hcf.2
    simp [comparativeHit, hmd] at hhit

/-- Witness for `filter_keeps_unfetched` at a concrete input. -/
theorem filter_keeps_unfetched_witness :
    ((([(6, [2])] : List (Nat × List Nat)).map Prod.fst).Nodup ∧
        (6, [2]) ∈ ([(6, [2])] : List (Nat × List Nat)) ∧ witnessMdNone 6 = none) ∧
      ((6, [2]) ∈ (filterCandidates witnessPatterns true true witnessMdNone [(6, [2])]).1 ∧
        6 ∉ (filterCandidates witnessPatterns true true witnessMdNone [(6, [2])]).2) :=
  ⟨⟨by simp, by simp, rfl⟩,
    filter_keeps_unfetched witnessPatterns true true witnessMdNone [(6, [2])] 6 [2]
      (by simp) (by simp) rfl⟩

/-- Helper: the ranked-report comparison is total. -/
lemma rankLE_total (w : Nat → ℚ) (s : Nat → Nat) (p q : Nat) :
    (rankLE w s p q || rankLE w s q p) = true := by
  simp only [rankLE, Bool.or_eq_true, Bool.and_eq_true, decide_eq_true_eq]
  rcases lt_trichotomy (w p) (w q) with h | h | h
  · exact Or.inr (Or.inl h)
  · rcases lt_trichotomy (s p) (s q) with h2 | h2 | h2
    · exact Or.inr (Or.inr ⟨h.symm, Or.inl h2⟩)
    · rcases le_total p q with h3 | h3
      · exact Or.inl (Or.inr ⟨h, Or.inr ⟨h2, h3⟩⟩)
      · exact Or.inr (Or.inr ⟨h.symm, Or.inr ⟨h2.symm, h3⟩⟩)
    · exact Or.inl (Or.inr ⟨h, Or.inl h2⟩)
  · exact Or.inl (Or.inl h)

/-- Helper: the ranked-report comparison is transitive. -/
lemma rankLE_trans (w : Nat → ℚ) (s : Nat → Nat) (a b c : Nat)
    (hab : rankLE w s a b = true) (hbc : rankLE w s b c = true) :
    rankLE w s a c = true := by
  simp only [rankLE, Bool.or_eq_true, Bool.and_eq_true, decide_eq_true_eq] at hab hbc ⊢
  rcases hab with h1 | ⟨h1, h2⟩ <;> rcases hbc with h3 | ⟨h3, h4⟩
  · exact Or.inl (h3.trans h1)
  · exact Or.inl (h3 ▸ h1)
  · exact Or.inl (by rw [h1]; exact h3)
  · refine Or.inr ⟨h1.trans h3, ?_⟩
    rcases h2 with h2 | ⟨h2, h5⟩ <;> rcases h4 with h4 | ⟨h4, h6⟩
    · exact Or.inl (h4.trans h2)
    · exact Or.inl (h4 ▸ h2)
    · exact Or.inl (by rw [h2]; exact h4)
    · exact Or.inr ⟨h2.trans h4, h5.trans h6⟩

/-- C5: the data rows of `candidates_ranked.txt` are a permutation of the
surviving candidate set ordered by weighted score descending, with ties
broken by raw score descending and remaining ties by PMID ascending: for any
two candidates with equal weighted and raw scores, the lower PMID appears
first. -/
theorem rankedPmids_spec (w : Nat → ℚ) (s : Nat → Nat) (pmids : List Nat)
    (hnd : pmids.Nodup) :
    (rankedPmids w s pmids).Perm pmids ∧
      (rankedPmids w s pmids).Pairwise (fun p q =>
        w q < w p ∨ (w p = w q ∧ s q < s p) ∨
          (w p = w q ∧ s p = s q ∧ p < q)) := by
  have hperm : (rankedPmids w s pmids).Perm pmids :=
    List.mergeSort_perm pmids (rankLE w s)
  refine ⟨hperm, ?_⟩
  have hsorted :
      (rankedPmids w s pmids).Pairwise (fun p q => rankLE w s p q = true) :=
    List.sorted_mergeSort (rankLE_trans w s) (rankLE_total w s) pmids
  have hndsorted : (rankedPmids w s pmids).Nodup := hperm.nodup_iff.mpr hnd
  have hcomb := hsorted.and hndsorted
  refine hcomb.imp ?_
  intro p q ⟨hle, hne⟩
  simp only [rankLE, Bool.or_eq_true, Bool.and_eq_true, decide_eq_true_eq] at hle
  rcases hle with h | ⟨h1, h2⟩
  · exact Or.inl h
  · rcases h2 with h2 | ⟨h2, h3⟩
    · exact Or.inr (Or.inl ⟨h1, h2⟩)
    · exact Or.inr (Or.inr ⟨h1, h2, lt_of_le_of_ne h3 hne⟩)

/-- Witness for `rankedPmids_spec` at a concrete input. -/
theorem rankedPmids_spec_witness :
    ([3, 7] : List Nat).Nodup ∧
      ((rankedPmids (fun p => (p : ℚ)) (fun _ => 0) [3, 7]).Perm [3, 7] ∧
        (rankedPmids (fun p => (p : ℚ)) (fun _ => 0) [3, 7]).Pairwise
          (fun (p q : Nat) =>
            ((q : Nat) : ℚ) < ((p : Nat) : ℚ) ∨
              (((p : Nat) : ℚ) = ((q : Nat) : ℚ) ∧ (0 : Nat) < 0) ∨
              (((p : Nat) : ℚ) = ((q : Nat) : ℚ) ∧ (0 : Nat) = (0 : Nat) ∧ p < q))) :=
  ⟨by decide, rankedPmids_spec (fun p => (p : ℚ)) (fun _ => 0) [3, 7] (by decide)⟩

/-- C6: the recommended threshold is `max(2, maxRawScore / 10)` (integer
division); a threshold file is emitted exactly for the members of the fixed
candidate list that do not exceed the maximum raw score, and each emitted
body lists, in ascending order, exactly the candidates whose raw score
reaches the threshold. -/
theorem emittedThresholdFiles_spec (scores : List (Nat × Nat)) (t : Nat) :
    recommendedThreshold (maxRawScore scores) = max 2 (maxRawScore scores / 10) ∧
      (∀ body : List Nat,
        (t, body) ∈ emittedThresholdFiles scores ↔
          t ∈ thresholdCandidates (maxRawScore scores) ∧
            t ≤ maxRawScore scores ∧ body = thresholdFileContent scores t) ∧
      (thresholdFileContent scores t).Sorted (· ≤ ·) ∧
      (∀ pmid : Nat,
        pmid ∈ thresholdFileContent scores t ↔
          ∃ sc : Nat, (pmid, sc) ∈ scores ∧ t ≤ sc) := by
  refine ⟨rfl, ?_, ?_, ?_⟩
  · intro body
    constructor
    · intro h
      simp only [emittedThresholdFiles, List.mem_filterMap] at h
      obtain ⟨a, ha, hfa⟩ := h
      by_cases hle : a ≤ maxRawScore scores
      · rw [if_pos hle] at hfa
        obtain ⟨rfl, rfl⟩ := Prod.mk.injEq .. ▸ Option.some.inj hfa
        exact ⟨ha, hle, rfl⟩
      · rw [if_neg hle] at hfa
        exact absurd hfa (Option.noConfusion)
    · rintro ⟨ht, hle, rfl⟩
      simp only [emittedThresholdFiles, List.mem_filterMap]
      exact ⟨t, ht, by rw [if_pos hle]⟩
  · unfold thresholdFileContent
    have hpair :
        (((scores.filter (fun c => decide (t ≤ c.2))).map Prod.fst).mergeSort
            (fun a b => decide (a ≤ b))).Pairwise
          (fun a b => decide (a ≤ b) = true) :=
      List.sorted_mergeSort
        (by
          intro a b c h1 h2
          simp only [decide_eq_true_eq] at h1 h2 ⊢
          omega)
        (by
          intro a b
          simp only [Bool.or_eq_true, decide_eq_true_eq]
          omega)
        ((scores.filter (fun c => decide (t ≤ c.2))).map Prod.fst)
    exact hpair.imp (fun h => of_decide_eq_true h)
  · intro pmid
    constructor
    · intro h
      unfold thresholdFileContent at h
      rw [List.mem_mergeSort] at h
      simp only [List.mem_map, List.mem_filter, decide_eq_true_eq] at h
      obtain ⟨⟨p, sc⟩, ⟨hmem, hsc⟩, rfl⟩ := h
      exact ⟨sc, hmem, hsc⟩
    · rintro ⟨sc, hmem, hsc⟩
      unfold thresholdFileContent
      rw [List.mem_mergeSort]
      simp only [List.mem_map, List.mem_filter, decide_eq_true_eq]
      exact ⟨(pmid, sc), ⟨hmem, hsc⟩, rfl⟩
